import Mathlib

/-!
Verification of the cache-aside consistency protocol of the movie-lookup
service (src/movie-service/main.py).

The embedding models:
  * the record type (pydantic `Movie`, table `movies`),
  * the JSON cache value encoding (`json.dumps(movie_data, default=str)`
    turns the `DECIMAL(3,1)` rating into its decimal string; the response
    path `json.loads` + pydantic coercion parses it back),
  * the Redis cache as an association list of key / (value, ttl) entries,
  * each endpoint as a function from state to result, post-state and a
    trace of store/cache events mirroring the statement order of the code,
    including the commit/rollback performed by `get_db_connection` at
    `with`-block exit.
Ratings are modelled in tenths (an integer `t` denotes the decimal t/10),
matching the scale-1 `DECIMAL(3,1)` column.
-/

namespace MovieService

/-! ## Definitions -/

/-- JSON values, as produced by `json.dumps`/`json.loads`.  Cache entries are
stored in parsed form; numbers that `json.dumps` can encode directly are
`num`, objects keep field order. -/
inductive Json where
  | null : Json
  | str (s : String) : Json
  | num (n : Int) : Json
  | arr (xs : List Json) : Json
  | obj (fields : List (String × Json)) : Json

/-- Little-endian digit characters of `n` (empty for 0), with fuel; the
fuel is sufficient whenever `n ≤ fuel`.  Written with fuel so that the
recursion is structural and reduces inside the kernel. -/
def revDigitCharsF : Nat → Nat → List Char
  | _, 0 => []
  | 0, _ + 1 => []
  | f + 1, n + 1 => Char.ofNat (48 + (n + 1) % 10) :: revDigitCharsF f ((n + 1) / 10)

/-- Little-endian digit characters of a positive natural (empty for 0). -/
def revDigitChars (n : Nat) : List Char := revDigitCharsF n n

/-- Decimal digit characters of a natural, most significant first
(extensionally Python `str` on a natural). -/
def natToChars (n : Nat) : List Char :=
  if n = 0 then [Char.ofNat 48] else (revDigitChars n).reverse

/-- Parse a little-endian digit character list. -/
def charsToNatRev : List Char → Option Nat
  | [] => some 0
  | c :: cs =>
    if 48 ≤ c.toNat ∧ c.toNat ≤ 57 then
      (charsToNatRev cs).map (fun m => (c.toNat - 48) + 10 * m)
    else none

/-- Parse a big-endian digit character list (empty list is not a numeral). -/
def charsToNat (cs : List Char) : Option Nat :=
  if cs.isEmpty then none else charsToNatRev cs.reverse

/-- The decimal point character. -/
def dotChar : Char := Char.ofNat 46

/-- The minus sign character. -/
def minusChar : Char := Char.ofNat 45

/-- `str(movie_id)`: the decimal string of a natural. -/
def natStr (n : Nat) : String := String.mk (natToChars n)

/-- `str(Decimal(...))` on the scale-1 value `t/10` (`t` in tenths): sign,
then integer part, '.', one fraction digit, e.g. 88 ↦ "8.8", -5 ↦ "-0.5". -/
def decStr (t : Int) : String :=
  String.mk ((if t < 0 then [minusChar] else []) ++
    natToChars (t.natAbs / 10) ++ dotChar :: natToChars (t.natAbs % 10))

/-- Parse the fraction-bearing part of a scale-1 decimal string: integer
digits, '.', exactly one fraction digit; result in tenths.  This models the
numeric parse pydantic applies to the cached decimal string, specialised to
the strings the `DECIMAL(3,1)` column can print. -/
def parseUnsignedTenths (cs : List Char) : Option Nat :=
  let ip := cs.takeWhile (fun c => c ≠ dotChar)
  match cs.dropWhile (fun c => c ≠ dotChar) with
  | [] => none
  | _ :: fp =>
    match charsToNat ip, charsToNat fp with
    | some u, some f => if fp.length = 1 then some (u * 10 + f) else none
    | _, _ => none

/-- Parse a signed scale-1 decimal character list into tenths. -/
def parseDecCharsTenths : List Char → Option Int
  | [] => none
  | c :: cs =>
    if c = minusChar then (parseUnsignedTenths cs).map (fun n => -(n : Int))
    else (parseUnsignedTenths (c :: cs)).map (fun n => (n : Int))

/-- Parse a signed scale-1 decimal string into tenths. -/
def parseDecTenths (s : String) : Option Int := parseDecCharsTenths s.data

/-- A row of the `movies` table / a pydantic `Movie` response.  `rating` is
the `DECIMAL(3,1)` column in tenths (`some 88` is 8.8), `none` is NULL. -/
structure Movie where
  id : Nat
  title : String
  director : String
  year : Int
  genre : String
  rating : Option Int
deriving DecidableEq

/-- The request body for create/update: the pydantic `Movie` model without
the server-assigned id (a client-sent id is ignored by the handlers). -/
structure MovieIn where
  title : String
  director : String
  year : Int
  genre : String
  rating : Option Int
deriving DecidableEq

def fieldId : String := "id"

def fieldTitle : String := "title"

def fieldDirector : String := "director"

def fieldYear : String := "year"

def fieldGenre : String := "genre"

def fieldRating : String := "rating"

/-- Serialization of the rating by `json.dumps(..., default=str)`: NULL
becomes JSON null, a decimal becomes its string. -/
def ratingToJson : Option Int → Json
  | none => .null
  | some t => .str (decStr t)

/-- `json.dumps(movie_data, default=str)` on a row dict, in parsed form. -/
def movieToJson (m : Movie) : Json :=
  .obj [(fieldId, .num m.id), (fieldTitle, .str m.title),
        (fieldDirector, .str m.director), (fieldYear, .num m.year),
        (fieldGenre, .str m.genre), (fieldRating, ratingToJson m.rating)]

/-- `json.dumps(movies, default=str)` on a list of row dicts. -/
def moviesToJson (ms : List Movie) : Json := .arr (ms.map movieToJson)

/-- Dict lookup by field name. -/
def assocFind : List (String × Json) → String → Option Json
  | [], _ => none
  | (k, v) :: fs, key => if k = key then some v else assocFind fs key

def Json.getField : Json → String → Option Json
  | .obj fs, key => assocFind fs key
  | _, _ => none

/-- Pydantic coercion of the rating field: null stays NULL, the cached
decimal string parses back to a number. -/
def jsonToRating : Json → Option (Option Int)
  | .null => some none
  | .str s => (parseDecTenths s).map some
  | _ => none

/-- Pydantic validation of a parsed JSON dict against the `Movie` response
model (the coercion FastAPI applies at `response_model=Movie`). -/
def jsonToMovie (j : Json) : Option Movie :=
  match j.getField fieldId, j.getField fieldTitle, j.getField fieldDirector,
        j.getField fieldYear, j.getField fieldGenre, j.getField fieldRating with
  | some (.num i), some (.str t), some (.str d), some (.num y), some (.str g), some r =>
    match jsonToRating r with
    | some rt => if 0 ≤ i then some ⟨i.toNat, t, d, y, g, rt⟩ else none
    | none => none
  | _, _, _, _, _, _ => none

/-- Element-wise validation of parsed JSON dicts against `List[Movie]`. -/
def decodeMovies : List Json → Option (List Movie)
  | [] => some []
  | j :: js =>
    match jsonToMovie j, decodeMovies js with
    | some m, some ms => some (m :: ms)
    | _, _ => none

/-- Validation of a parsed JSON array against `List[Movie]`. -/
def jsonToMovies : Json → Option (List Movie)
  | .arr xs => decodeMovies xs
  | _ => none

/-- The store: the `movies` table (rows in table order) together with the
SERIAL id counter. -/
structure Store where
  rows : List Movie
  nextId : Nat
deriving DecidableEq

/-- The Redis keyspace: an association list of key, value, stored TTL. -/
abbrev Cache := List (String × Json × Nat)

structure State where
  store : Store
  cache : Cache

def CACHE_TTL : Nat := 3600

/-- `f"movie:{movie_id}"`. -/
def get_cache_key (movie_id : Nat) : String := "movie:" ++ natStr movie_id

/-- The distinguished collection key. -/
def get_all_movies_cache_key : String := "movies:all"

/-- `redis_client.get(key)` (value and stored ttl of the entry, if any). -/
def cacheFind : Cache → String → Option (Json × Nat)
  | [], _ => none
  | (k, v, t) :: c, key => if k = key then some (v, t) else cacheFind c key

/-- `redis_client.delete(key)`. -/
def cacheRemove : Cache → String → Cache
  | [], _ => []
  | (k, v, t) :: c, key => if k = key then cacheRemove c key else (k, v, t) :: cacheRemove c key

/-- `redis_client.setex(key, ttl, value)`: overwrite, fresh ttl. -/
def cacheSetex (c : Cache) (key : String) (ttl : Nat) (v : Json) : Cache :=
  (key, v, ttl) :: cacheRemove c key

/-- The SQL statements the handlers issue. -/
inductive Query where
  | insertRow (m : MovieIn)
  | selectById (movie_id : Nat)
  | selectByIds (ids : List Nat)
  | selectAll
  | selectByGenre (genre : String)
  | updateRow (movie_id : Nat) (m : MovieIn)
  | deleteRow (movie_id : Nat)
deriving DecidableEq

/-- Observable store/cache actions, in program order.  `commit`/`rollback`
are performed by `get_db_connection` when the `with` block exits. -/
inductive Event where
  | storeQuery (q : Query)
  | commit
  | rollback
  | cacheGet (key : String)
  | cacheSet (key : String) (ttl : Nat)
  | cacheDel (key : String)
deriving DecidableEq

/-- Failure outcomes: 404, store unavailable/query error (5xx), and a
response-validation failure (can only arise from a malformed cache entry). -/
inductive Err where
  | notFound
  | storeFailure
  | validation
deriving DecidableEq

/-- Result, post-state, event trace of one request. -/
structure Outcome (α : Type) where
  result : Except Err α
  state : State
  events : List Event

/-- `SELECT * FROM movies WHERE id = %s` (fetchone). -/
def findRow : List Movie → Nat → Option Movie
  | [], _ => none
  | r :: rs, i => if r.id = i then some r else findRow rs i

/-- The row the store builds from an INSERT/UPDATE with the given id. -/
def rowOfInput (i : Nat) (m : MovieIn) : Movie :=
  ⟨i, m.title, m.director, m.year, m.genre, m.rating⟩

/-- FastAPI response validation at `response_model=Movie`. -/
def movieResponse (j : Json) : Except Err Movie :=
  match jsonToMovie j with
  | some m => .ok m
  | none => .error .validation

/-- Response validation of a list of collected dicts (`List[Movie]`). -/
def moviesResponse (js : List Json) : Except Err (List Movie) :=
  match decodeMovies js with
  | some ms => .ok ms
  | none => .error .validation

/-- Response validation of a cached collection value. -/
def movieListResponse (j : Json) : Except Err (List Movie) :=
  match jsonToMovies j with
  | some ms => .ok ms
  | none => .error .validation

/-- `POST /movies` (`create_movie`).  `storeOk = false` models the store
connection/statement raising (StoreFailure): `get_db_connection` rolls back
and re-raises before any cache statement runs. -/
def create_movie (storeOk : Bool) (s : State) (movie : MovieIn) : Outcome Movie :=
  if storeOk then
    let r := rowOfInput s.store.nextId movie
    let key := get_cache_key r.id
    ⟨.ok r,
     ⟨⟨s.store.rows ++ [r], s.store.nextId + 1⟩,
      cacheRemove (cacheSetex s.cache key CACHE_TTL (movieToJson r)) get_all_movies_cache_key⟩,
     [.storeQuery (.insertRow movie), .cacheSet key CACHE_TTL,
      .cacheDel get_all_movies_cache_key, .commit]⟩
  else ⟨.error .storeFailure, s, [.storeQuery (.insertRow movie), .rollback]⟩

/-- `GET /movies/{movie_id}` (`get_movie`).  A 404 (`HTTPException`) raised
inside the `with` block rolls the transaction back. -/
def get_movie (s : State) (movie_id : Nat) : Outcome Movie :=
  let key := get_cache_key movie_id
  match cacheFind s.cache key with
  | some (v, _) => ⟨movieResponse v, s, [.cacheGet key]⟩
  | none =>
    match findRow s.store.rows movie_id with
    | none =>
      ⟨.error .notFound, s,
       [.cacheGet key, .storeQuery (.selectById movie_id), .rollback]⟩
    | some r =>
      ⟨.ok r,
       { s with cache := cacheSetex s.cache key CACHE_TTL (movieToJson r) },
       [.cacheGet key, .storeQuery (.selectById movie_id), .cacheSet key CACHE_TTL, .commit]⟩

/-- The cache-probing loop of the batch endpoint: collected hit values (in
input order), miss ids (in input order), and the cache events. -/
def batchScan (c : Cache) : List Nat → List Json × List Nat × List Event
  | [] => ([], [], [])
  | i :: rest =>
    let key := get_cache_key i
    let (hits, misses, evs) := batchScan c rest
    match cacheFind c key with
    | some (v, _) => (v :: hits, misses, .cacheGet key :: evs)
    | none => (hits, i :: misses, .cacheGet key :: evs)

/-- Caching of a fetched row inside the batch loop
(`redis_client.setex(get_cache_key(movie_data['id']), TTL, dumped row)`). -/
def cacheFoldFn (c : Cache) (r : Movie) : Cache :=
  cacheSetex c (get_cache_key r.id) CACHE_TTL (movieToJson r)

/-- `POST /movies/batch` (`get_movies_batch`). -/
def get_movies_batch (s : State) (movie_ids : List Nat) : Outcome (List Movie) :=
  if movie_ids.isEmpty then ⟨.ok [], s, []⟩
  else
    let scan := batchScan s.cache movie_ids
    let hits := scan.1
    let misses := scan.2.1
    let evs := scan.2.2
    if misses.isEmpty then ⟨moviesResponse hits, s, evs⟩
    else
      let rows := s.store.rows.filter (fun r => decide (r.id ∈ misses))
      ⟨moviesResponse (hits ++ rows.map movieToJson),
       { s with cache := rows.foldl cacheFoldFn s.cache },
       evs ++ [.storeQuery (.selectByIds misses)] ++
         rows.map (fun r => .cacheSet (get_cache_key r.id) CACHE_TTL) ++ [.commit]⟩

/-- `GET /movies` (`get_movies`): filtered listing bypasses the cache,
unfiltered listing is cache-aside on the collection key. -/
def get_movies (s : State) (genre : Option String) : Outcome (List Movie) :=
  match genre with
  | some g =>
    ⟨.ok (s.store.rows.filter (fun r => r.genre == g)), s,
     [.storeQuery (.selectByGenre g), .commit]⟩
  | none =>
    let key := get_all_movies_cache_key
    match cacheFind s.cache key with
    | some (v, _) => ⟨movieListResponse v, s, [.cacheGet key]⟩
    | none =>
      ⟨.ok s.store.rows,
       { s with cache := cacheSetex s.cache key CACHE_TTL (moviesToJson s.store.rows) },
       [.cacheGet key, .storeQuery .selectAll, .cacheSet key CACHE_TTL, .commit]⟩

/-- `PUT /movies/{movie_id}` (`update_movie`). -/
def update_movie (storeOk : Bool) (s : State) (movie_id : Nat) (movie : MovieIn) :
    Outcome Movie :=
  if storeOk then
    match findRow s.store.rows movie_id with
    | none => ⟨.error .notFound, s, [.storeQuery (.updateRow movie_id movie), .rollback]⟩
    | some _ =>
      let r := rowOfInput movie_id movie
      let key := get_cache_key movie_id
      ⟨.ok r,
       ⟨⟨s.store.rows.map (fun row => if row.id = movie_id then r else row), s.store.nextId⟩,
        cacheRemove (cacheSetex s.cache key CACHE_TTL (movieToJson r)) get_all_movies_cache_key⟩,
       [.storeQuery (.updateRow movie_id movie), .cacheSet key CACHE_TTL,
        .cacheDel get_all_movies_cache_key, .commit]⟩
  else ⟨.error .storeFailure, s, [.storeQuery (.updateRow movie_id movie), .rollback]⟩

/-- `DELETE /movies/{movie_id}` (`delete_movie`). -/
def delete_movie (storeOk : Bool) (s : State) (movie_id : Nat) : Outcome Unit :=
  if storeOk then
    match findRow s.store.rows movie_id with
    | none => ⟨.error .notFound, s, [.storeQuery (.deleteRow movie_id), .rollback]⟩
    | some _ =>
      let key := get_cache_key movie_id
      ⟨.ok (),
       ⟨⟨s.store.rows.filter (fun row => decide (row.id ≠ movie_id)), s.store.nextId⟩,
        cacheRemove (cacheRemove s.cache key) get_all_movies_cache_key⟩,
       [.storeQuery (.deleteRow movie_id), .cacheDel key,
        .cacheDel get_all_movies_cache_key, .commit]⟩
  else ⟨.error .storeFailure, s, [.storeQuery (.deleteRow movie_id), .rollback]⟩

/-- The empty deployment: empty table, SERIAL counter at 1, empty cache. -/
def initState : State := ⟨⟨[], 1⟩, []⟩

/-- The hit values collected by the batch loop. -/
def batchHits (s : State) (ids : List Nat) : List Json := (batchScan s.cache ids).1

/-- The miss ids collected by the batch loop (`uncached_ids`). -/
def batchMisses (s : State) (ids : List Nat) : List Nat := (batchScan s.cache ids).2.1

/-- The cache events of the batch loop. -/
def batchEvents (s : State) (ids : List Nat) : List Event := (batchScan s.cache ids).2.2

/-- The rows the single multi-key store query returns for the batch misses
(`SELECT * FROM movies WHERE id = ANY(uncached_ids)`), in table order. -/
def batchFetched (s : State) (ids : List Nat) : List Movie :=
  s.store.rows.filter (fun r => decide (r.id ∈ batchMisses s ids))

/-- Spec wording for the hits: the cached values of the input ids, collected
in input-iteration order. -/
def specHits (s : State) (ids : List Nat) : List Json :=
  ids.filterMap (fun i => (cacheFind s.cache (get_cache_key i)).map Prod.fst)

/-- Spec wording for the misses: the non-cached input ids, in input order. -/
def specMisses (s : State) (ids : List Nat) : List Nat :=
  ids.filter (fun i => (cacheFind s.cache (get_cache_key i)).isNone)

/-- A present per-id cache entry holds exactly the serialization of the row
currently in the store under that id (in the sequential model this is the
"no staler than the last successful write" invariant). -/
def rowsConsistent (s : State) : Prop :=
  ∀ i v t, cacheFind s.cache (get_cache_key i) = some (v, t) →
    ∃ r, findRow s.store.rows i = some r ∧ v = movieToJson r

/-- A present collection cache entry holds exactly the serialization of the
full current record set. -/
def collConsistent (s : State) : Prop :=
  ∀ v t, cacheFind s.cache get_all_movies_cache_key = some (v, t) →
    v = moviesToJson s.store.rows

structure Inv (s : State) : Prop where
  idsBound : ∀ r ∈ s.store.rows, r.id < s.store.nextId
  idsNodup : (s.store.rows.map Movie.id).Nodup
  perId : rowsConsistent s
  coll : collConsistent s

/-- States reachable from the empty deployment by any sequence of the
service's operations (mutations with either store outcome). -/
inductive Reachable : State → Prop where
  | init : Reachable initState
  | create (ok : Bool) (s : State) (m : MovieIn) :
      Reachable s → Reachable (create_movie ok s m).state
  | getOne (s : State) (i : Nat) : Reachable s → Reachable (get_movie s i).state
  | batch (s : State) (ids : List Nat) :
      Reachable s → Reachable (get_movies_batch s ids).state
  | listing (s : State) (g : Option String) :
      Reachable s → Reachable (get_movies s g).state
  | updateOne (ok : Bool) (s : State) (i : Nat) (m : MovieIn) :
      Reachable s → Reachable (update_movie ok s i m).state
  | deleteOne (ok : Bool) (s : State) (i : Nat) :
      Reachable s → Reachable (delete_movie ok s i).state

/-- The store queries appearing in a trace, in order. -/
def storeQueries (tr : List Event) : List Query :=
  tr.filterMap (fun e =>
    match e with
    | .storeQuery q => some q
    | _ => none)

/-- Is the event a cache mutation (write or delete)? -/
def isCacheMut : Event → Bool
  | .cacheSet _ _ => true
  | .cacheDel _ => true
  | _ => false

/-- Is the event any cache access? -/
def isCacheEvent : Event → Bool
  | .cacheGet _ => true
  | .cacheSet _ _ => true
  | .cacheDel _ => true
  | _ => false

/-- Aux: does every cache mutation come strictly after a commit already
seen?  `seen` records whether a commit has occurred. -/
def cacheMutsOnlyAfterCommitAux : Bool → List Event → Bool
  | _, [] => true
  | seen, e :: tl =>
    match e with
    | .commit => cacheMutsOnlyAfterCommitAux true tl
    | .cacheSet _ _ => seen && cacheMutsOnlyAfterCommitAux seen tl
    | .cacheDel _ => seen && cacheMutsOnlyAfterCommitAux seen tl
    | _ => cacheMutsOnlyAfterCommitAux seen tl

/-- Every cache mutation in the trace occurs after the transaction commit. -/
def cacheMutsOnlyAfterCommit (tr : List Event) : Bool :=
  cacheMutsOnlyAfterCommitAux false tr

/-- Aux: does every cache mutation come after some store query? -/
def cacheMutsOnlyAfterQueryAux : Bool → List Event → Bool
  | _, [] => true
  | seen, e :: tl =>
    match e with
    | .storeQuery _ => cacheMutsOnlyAfterQueryAux true tl
    | .cacheSet _ _ => seen && cacheMutsOnlyAfterQueryAux seen tl
    | .cacheDel _ => seen && cacheMutsOnlyAfterQueryAux seen tl
    | _ => cacheMutsOnlyAfterQueryAux seen tl

/-- Every cache mutation in the trace occurs after the store statement has
executed. -/
def cacheMutsOnlyAfterQuery (tr : List Event) : Bool :=
  cacheMutsOnlyAfterQueryAux false tr

/-- Concrete request body used by witnesses (§8's scenario, rating 8.8). -/
def inceptionIn : MovieIn := ⟨"Inception", "Christopher Nolan", 2010, "Sci-Fi", some 88⟩

/-- The row the store assigns it in the empty deployment (id 1). -/
def inceptionRow : Movie := rowOfInput 1 inceptionIn

/-- The state right after creating it in the empty deployment. -/
def stateAfterCreate : State := (create_movie true initState inceptionIn).state

def dramaGenre : String := "Drama"

/-! ## Theorems: digit-string codec -/

theorem toNat_ofNat_digit (r : Nat) (hr : r < 10) :
    (Char.ofNat (48 + r)).toNat = 48 + r := by
  interval_cases r <;> rfl

theorem charsToNatRev_revDigitCharsF (f : Nat) :
    ∀ n ≤ f, charsToNatRev (revDigitCharsF f n) = some n := by
  induction f with
  | zero =>
    intro n hn
    match n with
    | 0 => rfl
  | succ f ih =>
    intro n hn
    match n with
    | 0 => rfl
    | n + 1 =>
      show charsToNatRev (Char.ofNat (48 + (n + 1) % 10) :: revDigitCharsF f ((n + 1) / 10))
        = some (n + 1)
      rw [charsToNatRev]
      have hr : (n + 1) % 10 < 10 := Nat.mod_lt _ (by omega)
      rw [toNat_ofNat_digit _ hr]
      rw [if_pos (by omega)]
      rw [ih ((n + 1) / 10) (by omega)]
      simp
      omega

theorem revDigitCharsF_digits (f : Nat) :
    ∀ n, ∀ c ∈ revDigitCharsF f n, 48 ≤ c.toNat ∧ c.toNat ≤ 57 := by
  induction f with
  | zero =>
    intro n c hc
    match n with
    | 0 => simp [revDigitCharsF] at hc
    | n + 1 => simp [revDigitCharsF] at hc
  | succ f ih =>
    intro n c hc
    match n with
    | 0 => simp [revDigitCharsF] at hc
    | n + 1 =>
      rcases List.mem_cons.mp hc with h | h
      · subst h
        have hr : (n + 1) % 10 < 10 := Nat.mod_lt _ (by omega)
        rw [toNat_ofNat_digit _ hr]
        omega
      · exact ih ((n + 1) / 10) c h

theorem natToChars_digits (n : Nat) :
    ∀ c ∈ natToChars n, 48 ≤ c.toNat ∧ c.toNat ≤ 57 := by
  intro c hc
  unfold natToChars at hc
  split at hc
  · rcases List.mem_singleton.mp hc with h
    subst h; exact ⟨by decide, by decide⟩
  · exact revDigitCharsF_digits n n c (List.mem_reverse.mp hc)

theorem revDigitChars_ne_nil (n : Nat) (hn : n ≠ 0) : revDigitChars n ≠ [] := by
  match n with
  | 0 => exact absurd rfl hn
  | n + 1 => exact List.cons_ne_nil _ _

theorem natToChars_ne_nil (n : Nat) : natToChars n ≠ [] := by
  unfold natToChars
  split
  · exact List.cons_ne_nil _ _
  · intro h
    exact revDigitChars_ne_nil n (by omega) (List.reverse_eq_nil_iff.mp h)

theorem charsToNat_natToChars (n : Nat) : charsToNat (natToChars n) = some n := by
  unfold charsToNat natToChars
  split
  · subst_vars; rfl
  · rw [if_neg, List.reverse_reverse]
    · exact charsToNatRev_revDigitCharsF n n (le_refl n)
    · simp only [List.isEmpty_eq_true, List.reverse_eq_nil_iff]
      intro h
      exact revDigitChars_ne_nil _ (by omega) h

theorem natToChars_injective : Function.Injective natToChars := by
  intro a b h
  have := charsToNat_natToChars a
  rw [h, charsToNat_natToChars b] at this
  exact (Option.some.injEq _ _ ▸ this).symm

theorem takeWhile_append_of_forall {p : Char → Bool} :
    ∀ (l₁ : List Char) (x : Char) (l₂ : List Char), (∀ a ∈ l₁, p a) → p x = false →
      (l₁ ++ x :: l₂).takeWhile p = l₁ := by
  intro l₁
  induction l₁ with
  | nil =>
    intro x l₂ _ hx
    simp [List.takeWhile, hx]
  | cons a l ih =>
    intro x l₂ hall hx
    have ha : p a = true := hall a (List.mem_cons_self a l)
    simp only [List.cons_append, List.takeWhile, ha]
    exact congrArg (a :: ·) (ih x l₂ (fun b hb => hall b (List.mem_cons_of_mem a hb)) hx)

theorem dropWhile_append_of_forall {p : Char → Bool} :
    ∀ (l₁ : List Char) (x : Char) (l₂ : List Char), (∀ a ∈ l₁, p a) → p x = false →
      (l₁ ++ x :: l₂).dropWhile p = x :: l₂ := by
  intro l₁
  induction l₁ with
  | nil =>
    intro x l₂ _ hx
    simp [List.dropWhile, hx]
  | cons a l ih =>
    intro x l₂ hall hx
    have ha : p a = true := hall a (List.mem_cons_self a l)
    simp only [List.cons_append, List.dropWhile, ha]
    exact ih x l₂ (fun b hb => hall b (List.mem_cons_of_mem a hb)) hx

theorem natToChars_not_dot (n : Nat) :
    ∀ c ∈ natToChars n, (decide (c ≠ dotChar)) = true := by
  intro c hc
  have h := natToChars_digits n c hc
  simp only [decide_eq_true_eq]
  intro he
  subst he
  simp [dotChar] at h

theorem natToChars_len_one (f : Nat) (hf : f < 10) : (natToChars f).length = 1 := by
  interval_cases f <;> rfl

theorem parseUnsignedTenths_decStr (u f : Nat) (hf : f < 10) :
    parseUnsignedTenths (natToChars u ++ dotChar :: natToChars f) = some (u * 10 + f) := by
  unfold parseUnsignedTenths
  rw [takeWhile_append_of_forall (natToChars u) dotChar (natToChars f)
    (natToChars_not_dot u) (by simp)]
  rw [dropWhile_append_of_forall (natToChars u) dotChar (natToChars f)
    (natToChars_not_dot u) (by simp)]
  simp [charsToNat_natToChars, natToChars_len_one f hf]

theorem head_natToChars_ne_minus (n : Nat) (c : Char) (cs : List Char)
    (h : natToChars n = c :: cs) : c ≠ minusChar := by
  have := natToChars_digits n c (h ▸ List.mem_cons_self c cs)
  intro he
  subst he
  simp [minusChar] at this

theorem parseDecTenths_decStr (t : Int) : parseDecTenths (decStr t) = some t := by
  have hf : t.natAbs % 10 < 10 := Nat.mod_lt _ (by omega)
  have hsplit : t.natAbs / 10 * 10 + t.natAbs % 10 = t.natAbs := by omega
  rcases lt_or_ge t 0 with ht | ht
  · have hdata : (decStr t).data =
        minusChar :: (natToChars (t.natAbs / 10) ++ dotChar :: natToChars (t.natAbs % 10)) := by
      simp [decStr, if_pos ht]
    have habs : ((t.natAbs : Int)) = -t := Int.ofNat_natAbs_of_nonpos (le_of_lt ht)
    rw [parseDecTenths, hdata, parseDecCharsTenths, if_pos rfl,
      parseUnsignedTenths_decStr _ _ hf]
    rw [hsplit]
    simp [habs]
  · have hdata : (decStr t).data =
        natToChars (t.natAbs / 10) ++ dotChar :: natToChars (t.natAbs % 10) := by
      simp [decStr, if_neg (not_lt.mpr ht)]
    obtain ⟨c, cs, hc⟩ : ∃ c cs, natToChars (t.natAbs / 10) = c :: cs := by
      rcases h : natToChars (t.natAbs / 10) with _ | ⟨c, cs⟩
      · exact absurd h (natToChars_ne_nil _)
      · exact ⟨c, cs, rfl⟩
    rw [parseDecTenths, hdata, hc, List.cons_append, parseDecCharsTenths,
      if_neg (head_natToChars_ne_minus _ c cs hc), ← List.cons_append, ← hc,
      parseUnsignedTenths_decStr _ _ hf]
    rw [hsplit]
    simp [Int.natAbs_of_nonneg ht]

/-! ## Theorems: record serialization round-trip -/

theorem jsonToRating_ratingToJson (r : Option Int) : jsonToRating (ratingToJson r) = some r := by
  cases r with
  | none => rfl
  | some t =>
    show (parseDecTenths (decStr t)).map some = some (some t)
    rw [parseDecTenths_decStr]
    rfl

theorem getField_id (m : Movie) : (movieToJson m).getField fieldId = some (.num m.id) := rfl

theorem getField_title (m : Movie) :
    (movieToJson m).getField fieldTitle = some (.str m.title) := rfl

theorem getField_director (m : Movie) :
    (movieToJson m).getField fieldDirector = some (.str m.director) := rfl

theorem getField_year (m : Movie) :
    (movieToJson m).getField fieldYear = some (.num m.year) := rfl

theorem getField_genre (m : Movie) :
    (movieToJson m).getField fieldGenre = some (.str m.genre) := rfl

theorem getField_rating (m : Movie) :
    (movieToJson m).getField fieldRating = some (ratingToJson m.rating) := rfl

/-- The cache value encoding round-trips: serializing a record and running
it back through the response validation recovers the record. -/
theorem jsonToMovie_movieToJson (m : Movie) : jsonToMovie (movieToJson m) = some m := by
  obtain ⟨i, t, d, y, g, r⟩ := m
  simp only [jsonToMovie, getField_id, getField_title, getField_director, getField_year,
    getField_genre, getField_rating, jsonToRating_ratingToJson]
  rw [if_pos (Int.ofNat_nonneg i)]
  simp

theorem decodeMovies_map (ms : List Movie) :
    decodeMovies (ms.map movieToJson) = some ms := by
  induction ms with
  | nil => rfl
  | cons m rest ih => simp [decodeMovies, ih, jsonToMovie_movieToJson]

theorem jsonToMovies_moviesToJson (ms : List Movie) :
    jsonToMovies (moviesToJson ms) = some ms := by
  simp only [jsonToMovies, moviesToJson, decodeMovies_map]

/-! ## Theorems: cache and key lemmas -/

theorem cacheFind_setex_same (c : Cache) (key : String) (ttl : Nat) (v : Json) :
    cacheFind (cacheSetex c key ttl v) key = some (v, ttl) := by
  simp [cacheSetex, cacheFind]

theorem cacheFind_remove_same (c : Cache) (key : String) :
    cacheFind (cacheRemove c key) key = none := by
  induction c with
  | nil => rfl
  | cons e c ih =>
    obtain ⟨k, v, t⟩ := e
    by_cases h : k = key
    · simp [cacheRemove, h, ih]
    · simp [cacheRemove, cacheFind, h, ih]

theorem cacheFind_remove_other (c : Cache) (key k : String) (h : k ≠ key) :
    cacheFind (cacheRemove c key) k = cacheFind c k := by
  induction c with
  | nil => rfl
  | cons e c ih =>
    obtain ⟨k₀, v, t⟩ := e
    by_cases h₀ : k₀ = key
    · have hk : ¬ k₀ = k := by rw [h₀]; exact fun he => h he.symm
      rw [cacheRemove, if_pos h₀, ih, cacheFind, if_neg hk]
    · rw [cacheRemove, if_neg h₀]
      by_cases h₁ : k₀ = k
      · rw [cacheFind, if_pos h₁, cacheFind, if_pos h₁]
      · rw [cacheFind, if_neg h₁, cacheFind, if_neg h₁, ih]

theorem cacheFind_setex_other (c : Cache) (key k : String) (ttl : Nat) (v : Json)
    (h : k ≠ key) : cacheFind (cacheSetex c key ttl v) k = cacheFind c k := by
  simp only [cacheSetex, cacheFind]
  rw [if_neg (fun he => h he.symm)]
  exact cacheFind_remove_other c key k h

theorem get_cache_key_data (i : Nat) :
    (get_cache_key i).data = 'm' :: 'o' :: 'v' :: 'i' :: 'e' :: ':' :: natToChars i := rfl

theorem all_movies_key_data :
    get_all_movies_cache_key.data =
      ['m', 'o', 'v', 'i', 'e', 's', ':', 'a', 'l', 'l'] := rfl

theorem get_cache_key_injective (i j : Nat) (h : get_cache_key i = get_cache_key j) :
    i = j := by
  have hd := congrArg String.data h
  rw [get_cache_key_data, get_cache_key_data] at hd
  simp only [List.cons.injEq, true_and] at hd
  exact natToChars_injective hd

theorem get_cache_key_ne_all (i : Nat) : get_cache_key i ≠ get_all_movies_cache_key := by
  intro h
  have hd := congrArg String.data h
  rw [get_cache_key_data, all_movies_key_data] at hd
  simp at hd

/-! ## Theorems: row lemmas -/

theorem findRow_append (l₁ l₂ : List Movie) (i : Nat) :
    findRow (l₁ ++ l₂) i =
      match findRow l₁ i with
      | some r => some r
      | none => findRow l₂ i := by
  induction l₁ with
  | nil => rfl
  | cons r rs ih =>
    by_cases h : r.id = i
    · simp [findRow, h]
    · simp [findRow, h, ih]

theorem findRow_eq_none_of_forall (l : List Movie) (i : Nat)
    (h : ∀ r ∈ l, r.id ≠ i) : findRow l i = none := by
  induction l with
  | nil => rfl
  | cons r rs ih =>
    simp [findRow, h r (List.mem_cons_self r rs), ih (fun x hx => h x (List.mem_cons_of_mem r hx))]

theorem findRow_mem (l : List Movie) (i : Nat) (r : Movie) (h : findRow l i = some r) :
    r ∈ l ∧ r.id = i := by
  induction l with
  | nil => simp [findRow] at h
  | cons r₀ rs ih =>
    by_cases h₀ : r₀.id = i
    · rw [findRow, if_pos h₀] at h
      cases h
      exact ⟨List.mem_cons_self _ _, h₀⟩
    · rw [findRow, if_neg h₀] at h
      obtain ⟨hm, hi⟩ := ih h
      exact ⟨List.mem_cons_of_mem _ hm, hi⟩

theorem findRow_of_mem_nodup (l : List Movie) (r : Movie)
    (hnd : (l.map Movie.id).Nodup) (hm : r ∈ l) : findRow l r.id = some r := by
  induction l with
  | nil => simp at hm
  | cons r₀ rs ih =>
    rcases List.mem_cons.mp hm with h | h
    · subst h
      simp [findRow]
    · by_cases h₀ : r₀.id = r.id
      · exfalso
        have : r.id ∈ rs.map Movie.id := List.mem_map_of_mem Movie.id h
        rw [List.map_cons, List.nodup_cons] at hnd
        exact hnd.1 (h₀ ▸ this)
      · rw [findRow, if_neg h₀]
        rw [List.map_cons, List.nodup_cons] at hnd
        exact ih hnd.2 h

theorem findRow_map_update_ne (l : List Movie) (i j : Nat) (r' : Movie)
    (hr' : r'.id = i) (hne : j ≠ i) :
    findRow (l.map (fun row => if row.id = i then r' else row)) j = findRow l j := by
  induction l with
  | nil => rfl
  | cons r rs ih =>
    by_cases h : r.id = i
    · have h₁ : r'.id ≠ j := by rw [hr']; exact fun he => hne he.symm
      have h₂ : r.id ≠ j := by rw [h]; exact fun he => hne he.symm
      simp only [List.map_cons, if_pos h, findRow, if_neg h₁, if_neg h₂, ih]
    · simp only [List.map_cons, if_neg h, findRow, ih]

theorem findRow_map_update_eq (l : List Movie) (i : Nat) (r r' : Movie)
    (hr' : r'.id = i) (hf : findRow l i = some r) :
    findRow (l.map (fun row => if row.id = i then r' else row)) i = some r' := by
  induction l with
  | nil => simp [findRow] at hf
  | cons r₀ rs ih =>
    by_cases h : r₀.id = i
    · simp only [List.map_cons, if_pos h, findRow, if_pos hr']
    · rw [findRow, if_neg h] at hf
      simp only [List.map_cons, if_neg h, findRow, if_neg h, ih hf]

theorem findRow_filter_ne (l : List Movie) (i j : Nat) (hne : j ≠ i) :
    findRow (l.filter (fun row => decide (row.id ≠ i))) j = findRow l j := by
  induction l with
  | nil => rfl
  | cons r rs ih =>
    rw [List.filter_cons]
    by_cases h : r.id = i
    · rw [if_neg (by simp [h]), ih, findRow, if_neg (fun he : r.id = j => hne (he ▸ h))]
    · rw [if_pos (by simp [h]), findRow, findRow, ih]

theorem findRow_filter_eq_none (l : List Movie) (i : Nat) :
    findRow (l.filter (fun row => decide (row.id ≠ i))) i = none := by
  apply findRow_eq_none_of_forall
  intro r hr
  have := List.of_mem_filter hr
  simpa using this

/-! ## Theorems: the batch cache-population fold -/

theorem cacheFind_foldl_all (rows : List Movie) (c : Cache) :
    cacheFind (rows.foldl cacheFoldFn c) get_all_movies_cache_key =
      cacheFind c get_all_movies_cache_key := by
  induction rows generalizing c with
  | nil => rfl
  | cons r rs ih =>
    rw [List.foldl_cons, ih]
    exact cacheFind_setex_other c (get_cache_key r.id) get_all_movies_cache_key
      CACHE_TTL (movieToJson r) (fun he => get_cache_key_ne_all r.id he.symm)

theorem cacheFind_foldl_perId (rows : List Movie) (c : Cache) (i : Nat) (v : Json) (t : Nat)
    (h : cacheFind (rows.foldl cacheFoldFn c) (get_cache_key i) = some (v, t)) :
    (∃ r ∈ rows, r.id = i ∧ v = movieToJson r ∧ t = CACHE_TTL) ∨
      cacheFind c (get_cache_key i) = some (v, t) := by
  induction rows generalizing c with
  | nil => exact Or.inr h
  | cons r rs ih =>
    rw [List.foldl_cons] at h
    rcases ih _ h with hr | hc
    · obtain ⟨r', hm, hrest⟩ := hr
      exact Or.inl ⟨r', List.mem_cons_of_mem r hm, hrest⟩
    · by_cases hi : r.id = i
      · rw [show get_cache_key i = get_cache_key r.id from congrArg _ hi.symm] at hc
        rw [show cacheFoldFn c r =
          cacheSetex c (get_cache_key r.id) CACHE_TTL (movieToJson r) from rfl] at hc
        rw [cacheFind_setex_same] at hc
        obtain ⟨hv, ht⟩ := Prod.mk.injEq _ _ _ _ ▸ Option.some.injEq _ _ ▸ hc
        exact Or.inl ⟨r, List.mem_cons_self r rs, hi, hv.symm, ht.symm⟩
      · rw [show cacheFoldFn c r =
          cacheSetex c (get_cache_key r.id) CACHE_TTL (movieToJson r) from rfl] at hc
        rw [cacheFind_setex_other c _ _ _ _
          (fun he => hi (get_cache_key_injective i r.id he).symm)] at hc
        exact Or.inr hc

theorem cacheFind_foldl_not_mem (rows : List Movie) (c : Cache) (i : Nat)
    (h : ∀ r ∈ rows, r.id ≠ i) :
    cacheFind (rows.foldl cacheFoldFn c) (get_cache_key i) =
      cacheFind c (get_cache_key i) := by
  induction rows generalizing c with
  | nil => rfl
  | cons r rs ih =>
    rw [List.foldl_cons, ih _ (fun x hx => h x (List.mem_cons_of_mem r hx))]
    exact cacheFind_setex_other c (get_cache_key r.id) (get_cache_key i) CACHE_TTL
      (movieToJson r)
      (fun he => h r (List.mem_cons_self r rs) (get_cache_key_injective i r.id he).symm)

theorem cacheFind_foldl_mem (rows : List Movie) (c : Cache) (r : Movie)
    (hnd : (rows.map Movie.id).Nodup) (hm : r ∈ rows) :
    cacheFind (rows.foldl cacheFoldFn c) (get_cache_key r.id) =
      some (movieToJson r, CACHE_TTL) := by
  induction rows generalizing c with
  | nil => simp at hm
  | cons r₀ rs ih =>
    rw [List.map_cons, List.nodup_cons] at hnd
    rw [List.foldl_cons]
    rcases List.mem_cons.mp hm with h | h
    · subst h
      rw [cacheFind_foldl_not_mem rs _ r.id
        (fun x hx he => hnd.1 (he ▸ List.mem_map_of_mem Movie.id hx))]
      exact cacheFind_setex_same c (get_cache_key r.id) CACHE_TTL (movieToJson r)
    · exact ih (cacheFoldFn c r₀) hnd.2 h

theorem Inv_init : Inv initState := by
  refine ⟨?_, ?_, ?_, ?_⟩
  · intro r hr; simp [initState] at hr
  · simp [initState]
  · intro i v t h; simp [initState, cacheFind] at h
  · intro v t h; simp [initState, cacheFind] at h

/-! ## Theorems: branch-unfolding lemmas for the endpoints -/

theorem create_true_def (s : State) (m : MovieIn) :
    create_movie true s m =
      ⟨.ok (rowOfInput s.store.nextId m),
       ⟨⟨s.store.rows ++ [rowOfInput s.store.nextId m], s.store.nextId + 1⟩,
        cacheRemove (cacheSetex s.cache (get_cache_key s.store.nextId) CACHE_TTL
          (movieToJson (rowOfInput s.store.nextId m))) get_all_movies_cache_key⟩,
       [.storeQuery (.insertRow m), .cacheSet (get_cache_key s.store.nextId) CACHE_TTL,
        .cacheDel get_all_movies_cache_key, .commit]⟩ := rfl

theorem create_false_def (s : State) (m : MovieIn) :
    create_movie false s m =
      ⟨.error .storeFailure, s, [.storeQuery (.insertRow m), .rollback]⟩ := rfl

theorem get_movie_hit (s : State) (i : Nat) (v : Json) (t : Nat)
    (h : cacheFind s.cache (get_cache_key i) = some (v, t)) :
    get_movie s i = ⟨movieResponse v, s, [.cacheGet (get_cache_key i)]⟩ := by
  simp only [get_movie, h]

theorem get_movie_miss_found (s : State) (i : Nat) (r : Movie)
    (hc : cacheFind s.cache (get_cache_key i) = none)
    (hf : findRow s.store.rows i = some r) :
    get_movie s i =
      ⟨.ok r,
       ⟨s.store, cacheSetex s.cache (get_cache_key i) CACHE_TTL (movieToJson r)⟩,
       [.cacheGet (get_cache_key i), .storeQuery (.selectById i),
        .cacheSet (get_cache_key i) CACHE_TTL, .commit]⟩ := by
  simp only [get_movie, hc, hf]

theorem get_movie_miss_absent (s : State) (i : Nat)
    (hc : cacheFind s.cache (get_cache_key i) = none)
    (hf : findRow s.store.rows i = none) :
    get_movie s i =
      ⟨.error .notFound, s,
       [.cacheGet (get_cache_key i), .storeQuery (.selectById i), .rollback]⟩ := by
  simp only [get_movie, hc, hf]

theorem batch_empty_def (s : State) :
    get_movies_batch s [] = ⟨.ok [], s, []⟩ := rfl

theorem batch_all_hit_def (s : State) (ids : List Nat) (hne : ids.isEmpty = false)
    (hm : (batchMisses s ids).isEmpty = true) :
    get_movies_batch s ids = ⟨moviesResponse (batchHits s ids), s, batchEvents s ids⟩ := by
  simp only [batchMisses] at hm
  simp only [get_movies_batch, batchHits, batchEvents, hne, hm,
    Bool.false_eq_true, if_false, if_true]

theorem batch_miss_def (s : State) (ids : List Nat) (hne : ids.isEmpty = false)
    (hm : (batchMisses s ids).isEmpty = false) :
    get_movies_batch s ids =
      ⟨moviesResponse (batchHits s ids ++ (batchFetched s ids).map movieToJson),
       ⟨s.store, (batchFetched s ids).foldl cacheFoldFn s.cache⟩,
       batchEvents s ids ++ [.storeQuery (.selectByIds (batchMisses s ids))] ++
         (batchFetched s ids).map (fun r => .cacheSet (get_cache_key r.id) CACHE_TTL) ++
         [.commit]⟩ := by
  have hm' := hm
  simp only [batchMisses] at hm'
  simp only [get_movies_batch, batchHits, batchEvents, batchFetched, batchMisses, hne, hm',
    Bool.false_eq_true, if_false]

theorem get_movies_genre_def (s : State) (g : String) :
    get_movies s (some g) =
      ⟨.ok (s.store.rows.filter (fun r => r.genre == g)), s,
       [.storeQuery (.selectByGenre g), .commit]⟩ := rfl

theorem get_movies_all_hit (s : State) (v : Json) (t : Nat)
    (h : cacheFind s.cache get_all_movies_cache_key = some (v, t)) :
    get_movies s none =
      ⟨movieListResponse v, s, [.cacheGet get_all_movies_cache_key]⟩ := by
  simp only [get_movies, h]

theorem get_movies_all_miss (s : State)
    (h : cacheFind s.cache get_all_movies_cache_key = none) :
    get_movies s none =
      ⟨.ok s.store.rows,
       ⟨s.store,
        cacheSetex s.cache get_all_movies_cache_key CACHE_TTL (moviesToJson s.store.rows)⟩,
       [.cacheGet get_all_movies_cache_key, .storeQuery .selectAll,
        .cacheSet get_all_movies_cache_key CACHE_TTL, .commit]⟩ := by
  simp only [get_movies, h]

theorem update_false_def (s : State) (i : Nat) (m : MovieIn) :
    update_movie false s i m =
      ⟨.error .storeFailure, s, [.storeQuery (.updateRow i m), .rollback]⟩ := rfl

theorem update_notFound_def (s : State) (i : Nat) (m : MovieIn)
    (hf : findRow s.store.rows i = none) :
    update_movie true s i m =
      ⟨.error .notFound, s, [.storeQuery (.updateRow i m), .rollback]⟩ := by
  unfold update_movie
  rw [if_pos rfl, hf]

theorem update_found_def (s : State) (i : Nat) (m : MovieIn) (r₀ : Movie)
    (hf : findRow s.store.rows i = some r₀) :
    update_movie true s i m =
      ⟨.ok (rowOfInput i m),
       ⟨⟨s.store.rows.map (fun row => if row.id = i then rowOfInput i m else row),
         s.store.nextId⟩,
        cacheRemove (cacheSetex s.cache (get_cache_key i) CACHE_TTL
          (movieToJson (rowOfInput i m))) get_all_movies_cache_key⟩,
       [.storeQuery (.updateRow i m), .cacheSet (get_cache_key i) CACHE_TTL,
        .cacheDel get_all_movies_cache_key, .commit]⟩ := by
  unfold update_movie
  rw [if_pos rfl, hf]

theorem delete_false_def (s : State) (i : Nat) :
    delete_movie false s i =
      ⟨.error .storeFailure, s, [.storeQuery (.deleteRow i), .rollback]⟩ := rfl

theorem delete_notFound_def (s : State) (i : Nat)
    (hf : findRow s.store.rows i = none) :
    delete_movie true s i =
      ⟨.error .notFound, s, [.storeQuery (.deleteRow i), .rollback]⟩ := by
  unfold delete_movie
  rw [if_pos rfl, hf]

theorem delete_found_def (s : State) (i : Nat) (r₀ : Movie)
    (hf : findRow s.store.rows i = some r₀) :
    delete_movie true s i =
      ⟨.ok (),
       ⟨⟨s.store.rows.filter (fun row => decide (row.id ≠ i)), s.store.nextId⟩,
        cacheRemove (cacheRemove s.cache (get_cache_key i)) get_all_movies_cache_key⟩,
       [.storeQuery (.deleteRow i), .cacheDel (get_cache_key i),
        .cacheDel get_all_movies_cache_key, .commit]⟩ := by
  unfold delete_movie
  rw [if_pos rfl, hf]

/-! ## Theorems: the batch loop computes the spec's hit/miss decomposition -/

theorem batchScan_hits (c : Cache) (ids : List Nat) :
    (batchScan c ids).1 =
      ids.filterMap (fun i => (cacheFind c (get_cache_key i)).map Prod.fst) := by
  induction ids with
  | nil => rfl
  | cons i rest ih =>
    simp only [batchScan, List.filterMap_cons]
    cases h : cacheFind c (get_cache_key i) with
    | none => simp only [h, Option.map_none', ih]
    | some e => obtain ⟨v, t⟩ := e; simp only [h, Option.map_some', ih]

theorem batchScan_misses (c : Cache) (ids : List Nat) :
    (batchScan c ids).2.1 =
      ids.filter (fun i => (cacheFind c (get_cache_key i)).isNone) := by
  induction ids with
  | nil => rfl
  | cons i rest ih =>
    simp only [batchScan, List.filter_cons]
    cases h : cacheFind c (get_cache_key i) with
    | none => simp only [h, Option.isNone_none, if_true, ih]
    | some e => obtain ⟨v, t⟩ := e; simp only [h, Option.isNone_some, Bool.false_eq_true,
        if_false, ih]

theorem batchScan_events (c : Cache) (ids : List Nat) :
    (batchScan c ids).2.2 = ids.map (fun i => Event.cacheGet (get_cache_key i)) := by
  induction ids with
  | nil => rfl
  | cons i rest ih =>
    simp only [batchScan, List.map_cons]
    cases h : cacheFind c (get_cache_key i) with
    | none => simp only [h, ih]
    | some e => obtain ⟨v, t⟩ := e; simp only [h, ih]

theorem batchHits_eq_specHits (s : State) (ids : List Nat) :
    batchHits s ids = specHits s ids := batchScan_hits s.cache ids

theorem batchMisses_eq_specMisses (s : State) (ids : List Nat) :
    batchMisses s ids = specMisses s ids := batchScan_misses s.cache ids

/-! ## Theorems: the invariant is preserved by every operation -/

theorem map_id_update (l : List Movie) (i : Nat) (r' : Movie) (hr' : r'.id = i) :
    (l.map (fun row => if row.id = i then r' else row)).map Movie.id = l.map Movie.id := by
  induction l with
  | nil => rfl
  | cons r rs ih =>
    by_cases h : r.id = i
    · simp only [List.map_cons, if_pos h, ih]
      rw [hr', h]
    · simp only [List.map_cons, if_neg h, ih]

theorem Inv_create (ok : Bool) (s : State) (m : MovieIn) (h : Inv s) :
    Inv (create_movie ok s m).state := by
  cases ok with
  | false => exact h
  | true =>
    rw [create_true_def]
    refine ⟨?_, ?_, ?_, ?_⟩
    · intro x hx
      rcases List.mem_append.mp hx with hx | hx
      · exact Nat.lt_succ_of_lt (h.idsBound x hx)
      · rw [List.mem_singleton.mp hx]
        exact Nat.lt_succ_self _
    · rw [List.map_append, List.nodup_append]
      refine ⟨h.idsNodup, List.nodup_singleton _, ?_⟩
      intro a ha hb
      rcases List.mem_map.mp ha with ⟨r, hr, rfl⟩
      rw [List.map_singleton, List.mem_singleton] at hb
      exact absurd hb (Nat.ne_of_lt (h.idsBound r hr))
    · intro i v t hfind
      rw [cacheFind_remove_other _ _ _ (get_cache_key_ne_all i)] at hfind
      by_cases hi : i = s.store.nextId
      · subst hi
        rw [cacheFind_setex_same] at hfind
        cases hfind
        refine ⟨rowOfInput s.store.nextId m, ?_, rfl⟩
        rw [findRow_append,
          findRow_eq_none_of_forall s.store.rows _ (fun r hr => Nat.ne_of_lt (h.idsBound r hr))]
        simp [findRow, rowOfInput]
      · rw [cacheFind_setex_other _ _ _ _ _
          (fun he => hi (get_cache_key_injective _ _ he))] at hfind
        obtain ⟨r, hfr, hv⟩ := h.perId i v t hfind
        refine ⟨r, ?_, hv⟩
        rw [findRow_append, hfr]
    · intro v t hfind
      rw [cacheFind_remove_same] at hfind
      simp at hfind

theorem Inv_get (s : State) (i : Nat) (h : Inv s) : Inv (get_movie s i).state := by
  cases hc : cacheFind s.cache (get_cache_key i) with
  | some e =>
    obtain ⟨v, t⟩ := e
    rw [get_movie_hit s i v t hc]
    exact h
  | none =>
    cases hf : findRow s.store.rows i with
    | none => rw [get_movie_miss_absent s i hc hf]; exact h
    | some r =>
      rw [get_movie_miss_found s i r hc hf]
      refine ⟨h.idsBound, h.idsNodup, ?_, ?_⟩
      · intro j v t hfind
        by_cases hj : j = i
        · subst hj
          rw [cacheFind_setex_same] at hfind
          cases hfind
          exact ⟨r, hf, rfl⟩
        · rw [cacheFind_setex_other _ _ _ _ _
            (fun he => hj (get_cache_key_injective _ _ he))] at hfind
          exact h.perId j v t hfind
      · intro v t hfind
        rw [cacheFind_setex_other _ _ _ _ _
          (fun he => get_cache_key_ne_all i he.symm)] at hfind
        exact h.coll v t hfind

theorem Inv_batch (s : State) (ids : List Nat) (h : Inv s) :
    Inv (get_movies_batch s ids).state := by
  cases hne : ids.isEmpty with
  | true =>
    have h0 : ids = [] := by rwa [List.isEmpty_eq_true] at hne
    subst h0
    rw [batch_empty_def]
    exact h
  | false =>
    cases hm : (batchMisses s ids).isEmpty with
    | true => rw [batch_all_hit_def s ids hne hm]; exact h
    | false =>
      rw [batch_miss_def s ids hne hm]
      refine ⟨h.idsBound, h.idsNodup, ?_, ?_⟩
      · intro j v t hfind
        rcases cacheFind_foldl_perId _ _ _ _ _ hfind with ⟨r, hmem, hid, hv, ht⟩ | hold
        · refine ⟨r, ?_, hv⟩
          rw [← hid]
          exact findRow_of_mem_nodup _ r h.idsNodup (List.mem_of_mem_filter hmem)
        · exact h.perId j v t hold
      · intro v t hfind
        rw [cacheFind_foldl_all] at hfind
        exact h.coll v t hfind

theorem Inv_listing (s : State) (g : Option String) (h : Inv s) :
    Inv (get_movies s g).state := by
  cases g with
  | some g => exact h
  | none =>
    cases hc : cacheFind s.cache get_all_movies_cache_key with
    | some e =>
      obtain ⟨v, t⟩ := e
      rw [get_movies_all_hit s v t hc]
      exact h
    | none =>
      rw [get_movies_all_miss s hc]
      refine ⟨h.idsBound, h.idsNodup, ?_, ?_⟩
      · intro j v t hfind
        rw [cacheFind_setex_other _ _ _ _ _ (get_cache_key_ne_all j)] at hfind
        exact h.perId j v t hfind
      · intro v t hfind
        rw [cacheFind_setex_same] at hfind
        cases hfind
        rfl

theorem Inv_update (ok : Bool) (s : State) (i : Nat) (m : MovieIn) (h : Inv s) :
    Inv (update_movie ok s i m).state := by
  cases ok with
  | false => exact h
  | true =>
    cases hf : findRow s.store.rows i with
    | none => rw [update_notFound_def s i m hf]; exact h
    | some r₀ =>
      rw [update_found_def s i m r₀ hf]
      have hid : (rowOfInput i m).id = i := rfl
      refine ⟨?_, ?_, ?_, ?_⟩
      · intro x hx
        rcases List.mem_map.mp hx with ⟨row, hrow, rfl⟩
        by_cases hri : row.id = i
        · rw [if_pos hri]
          show (rowOfInput i m).id < s.store.nextId
          rw [hid, ← hri]
          exact h.idsBound row hrow
        · rw [if_neg hri]
          exact h.idsBound row hrow
      · rw [map_id_update _ _ _ hid]
        exact h.idsNodup
      · intro j v t hfind
        rw [cacheFind_remove_other _ _ _ (get_cache_key_ne_all j)] at hfind
        by_cases hj : j = i
        · subst hj
          rw [cacheFind_setex_same] at hfind
          cases hfind
          exact ⟨rowOfInput j m, findRow_map_update_eq _ _ r₀ _ hid hf, rfl⟩
        · rw [cacheFind_setex_other _ _ _ _ _
            (fun he => hj (get_cache_key_injective _ _ he))] at hfind
          obtain ⟨r, hfr, hv⟩ := h.perId j v t hfind
          exact ⟨r, by rw [findRow_map_update_ne _ _ _ _ hid hj]; exact hfr, hv⟩
      · intro v t hfind
        rw [cacheFind_remove_same] at hfind
        simp at hfind

theorem Inv_delete (ok : Bool) (s : State) (i : Nat) (h : Inv s) :
    Inv (delete_movie ok s i).state := by
  cases ok with
  | false => exact h
  | true =>
    cases hf : findRow s.store.rows i with
    | none => rw [delete_notFound_def s i hf]; exact h
    | some r₀ =>
      rw [delete_found_def s i r₀ hf]
      refine ⟨?_, ?_, ?_, ?_⟩
      · intro x hx
        exact h.idsBound x (List.mem_of_mem_filter hx)
      · have hsub : ((s.store.rows.filter (fun row => decide (row.id ≠ i))).map
            Movie.id).Sublist (s.store.rows.map Movie.id) :=
          List.Sublist.map Movie.id (List.filter_sublist _)
        exact List.Nodup.sublist hsub h.idsNodup
      · intro j v t hfind
        rw [cacheFind_remove_other _ _ _ (get_cache_key_ne_all j)] at hfind
        by_cases hj : j = i
        · subst hj
          rw [cacheFind_remove_same] at hfind
          simp at hfind
        · rw [cacheFind_remove_other _ _ _
            (fun he => hj (get_cache_key_injective _ _ he))] at hfind
          obtain ⟨r, hfr, hv⟩ := h.perId j v t hfind
          exact ⟨r, by rw [findRow_filter_ne _ _ _ hj]; exact hfr, hv⟩
      · intro v t hfind
        rw [cacheFind_remove_same] at hfind
        simp at hfind

/-- Every reachable state satisfies the full invariant. -/
theorem Inv_of_Reachable (s : State) (h : Reachable s) : Inv s := by
  induction h with
  | init => exact Inv_init
  | create ok s m _ ih => exact Inv_create ok s m ih
  | getOne s i _ ih => exact Inv_get s i ih
  | batch s ids _ ih => exact Inv_batch s ids ih
  | listing s g _ ih => exact Inv_listing s g ih
  | updateOne ok s i m _ ih => exact Inv_update ok s i m ih
  | deleteOne ok s i _ ih => exact Inv_delete ok s i ih

/-! ## Theorems: helpers for the claim statements -/

theorem decodeMovies_append (a b : List Json) (ma mb : List Movie)
    (ha : decodeMovies a = some ma) (hb : decodeMovies b = some mb) :
    decodeMovies (a ++ b) = some (ma ++ mb) := by
  induction a generalizing ma with
  | nil =>
    simp only [decodeMovies] at ha
    cases ha
    simpa using hb
  | cons j js ih =>
    simp only [decodeMovies] at ha
    cases hj : jsonToMovie j with
    | none => simp [hj] at ha
    | some m =>
      cases hjs : decodeMovies js with
      | none => simp [hj, hjs] at ha
      | some ms =>
        simp only [hj, hjs] at ha
        cases ha
        rw [List.cons_append, decodeMovies, hj, ih ms hjs]
        rfl

theorem storeQueries_append (a b : List Event) :
    storeQueries (a ++ b) = storeQueries a ++ storeQueries b :=
  List.filterMap_append a b _

theorem storeQueries_map_cacheGet (l : List Nat) :
    storeQueries (l.map (fun i => Event.cacheGet (get_cache_key i))) = [] := by
  induction l with
  | nil => rfl
  | cons i rest ih => exact ih

theorem storeQueries_map_cacheSet (l : List Movie) :
    storeQueries (l.map (fun r => Event.cacheSet (get_cache_key r.id) CACHE_TTL)) = [] := by
  induction l with
  | nil => rfl
  | cons r rest ih => exact ih

theorem count_rows_with_id (l : List Movie) (c : Nat) (hnd : (l.map Movie.id).Nodup) :
    (l.filter (fun r => decide (r.id = c))).length ≤ 1 := by
  induction l with
  | nil => simp
  | cons r rs ih =>
    rw [List.map_cons, List.nodup_cons] at hnd
    rw [List.filter_cons]
    by_cases h : r.id = c
    · rw [if_pos (by simp [h])]
      have hnil : rs.filter (fun r => decide (r.id = c)) = [] := by
        rw [List.filter_eq_nil_iff]
        intro x hx
        simp only [decide_eq_true_eq]
        intro he
        exact hnd.1 (by rw [h, ← he]; exact List.mem_map_of_mem Movie.id hx)
      rw [hnil]
      exact le_refl 1
    · rw [if_neg (by simp [h])]
      exact ih hnd.2

theorem specHits_filter_eq_replicate (s : State) (ids : List Nat) (c : Nat) (v : Json) (t : Nat)
    (h : cacheFind s.cache (get_cache_key c) = some (v, t)) :
    specHits s (ids.filter (fun i => i = c)) = List.replicate (ids.count c) v := by
  induction ids with
  | nil => rfl
  | cons i rest ih =>
    rw [List.filter_cons]
    by_cases hi : i = c
    · rw [if_pos (by simp [hi]), hi, List.count_cons_self, List.replicate_succ]
      simp only [specHits, List.filterMap_cons, h, Option.map_some']
      exact congrArg (fun l => v :: l) ih
    · rw [if_neg (by simp [hi]), List.count_cons_of_ne (fun he => hi he.symm)]
      exact ih

/-! ## The claims -/

/-- C1, claim as stated is false: in the successful create path the per-id
cache write and the collection-key delete are executed inside the `with`
block, before the commit that `get_db_connection` performs at block exit,
so at this concrete input a cache mutation precedes the commit. -/
theorem C1_counterexample :
    cacheMutsOnlyAfterCommit (create_movie true initState inceptionIn).events = false := rfl

/-- C1 (amended): for every mutation, every cache mutation in the trace
occurs only after the store write statement has executed successfully
(though before the transaction commit, which happens at operation exit);
if the store operation fails, the transaction is rolled back, the error
propagates, and no cache mutation has been attempted, leaving the cache
state unchanged. -/
theorem C1_store_first_rollback (s : State) (m : MovieIn) (i : Nat) :
    (cacheMutsOnlyAfterQuery (create_movie true s m).events = true ∧
     cacheMutsOnlyAfterQuery (update_movie true s i m).events = true ∧
     cacheMutsOnlyAfterQuery (delete_movie true s i).events = true) ∧
    (create_movie false s m =
       ⟨.error .storeFailure, s, [.storeQuery (.insertRow m), .rollback]⟩ ∧
     update_movie false s i m =
       ⟨.error .storeFailure, s, [.storeQuery (.updateRow i m), .rollback]⟩ ∧
     delete_movie false s i =
       ⟨.error .storeFailure, s, [.storeQuery (.deleteRow i), .rollback]⟩) := by
  refine ⟨⟨rfl, ?_, ?_⟩, rfl, rfl, rfl⟩
  · cases hf : findRow s.store.rows i with
    | none => rw [update_notFound_def s i m hf]; rfl
    | some r₀ => rw [update_found_def s i m r₀ hf]; rfl
  · cases hf : findRow s.store.rows i with
    | none => rw [delete_notFound_def s i hf]; rfl
    | some r₀ => rw [delete_found_def s i r₀ hf]; rfl

/-- C2: in every reachable state, a present per-id cache entry equals the
serialization of the row currently in the store under that id, and a
present collection entry equals the serialization of the full current
record set — in this sequential model exactly the "no staler than the last
successful write / last mutation" property. -/
theorem C2_cache_consistency (s : State) (h : Reachable s) :
    rowsConsistent s ∧ collConsistent s :=
  ⟨(Inv_of_Reachable s h).perId, (Inv_of_Reachable s h).coll⟩

theorem C2_cache_consistency_witness :
    rowsConsistent stateAfterCreate ∧ collConsistent stateAfterCreate :=
  C2_cache_consistency stateAfterCreate
    (Reachable.create true initState inceptionIn Reachable.init)

/-- C3: get(id) returns the deserialized cached value with no store access
on a cache hit; on a cache miss with the id absent from the store it fails
NotFound and writes no cache entry (state unchanged); on a miss with the
row present it returns the row and populates the per-id cache with the
fixed TTL. -/
theorem C3_get_semantics (s : State) (i : Nat) :
    (∀ v t, cacheFind s.cache (get_cache_key i) = some (v, t) →
      get_movie s i = ⟨movieResponse v, s, [.cacheGet (get_cache_key i)]⟩) ∧
    (cacheFind s.cache (get_cache_key i) = none → findRow s.store.rows i = none →
      get_movie s i = ⟨.error .notFound, s,
        [.cacheGet (get_cache_key i), .storeQuery (.selectById i), .rollback]⟩) ∧
    (∀ r, cacheFind s.cache (get_cache_key i) = none → findRow s.store.rows i = some r →
      get_movie s i = ⟨.ok r,
        ⟨s.store, cacheSetex s.cache (get_cache_key i) CACHE_TTL (movieToJson r)⟩,
        [.cacheGet (get_cache_key i), .storeQuery (.selectById i),
         .cacheSet (get_cache_key i) CACHE_TTL, .commit]⟩) :=
  ⟨fun v t h => get_movie_hit s i v t h,
   fun hc hf => get_movie_miss_absent s i hc hf,
   fun r hc hf => get_movie_miss_found s i r hc hf⟩

theorem C3_get_semantics_witness :
    get_movie stateAfterCreate 1 =
      ⟨movieResponse (movieToJson inceptionRow), stateAfterCreate,
       [.cacheGet (get_cache_key 1)]⟩ :=
  (C3_get_semantics stateAfterCreate 1).1 (movieToJson inceptionRow) CACHE_TTL rfl

/-- C4: the batch result is all cache hits first, in input-iteration order
(the hits are the spec's filterMap over the input), followed by the
store-fetched rows in store row order; every fetched row is written to the
per-id cache with the TTL; ids found nowhere are silently omitted (the
result is `ok`, never NotFound). -/
theorem C4_batch_order (s : State) (ids : List Nat) (hms : List Movie)
    (hnd : (s.store.rows.map Movie.id).Nodup)
    (hdec : decodeMovies (batchHits s ids) = some hms) :
    (get_movies_batch s ids).result = .ok (hms ++ batchFetched s ids) ∧
    batchHits s ids = specHits s ids ∧
    batchFetched s ids =
      s.store.rows.filter (fun r => decide (r.id ∈ specMisses s ids)) ∧
    ∀ r ∈ batchFetched s ids,
      cacheFind (get_movies_batch s ids).state.cache (get_cache_key r.id) =
        some (movieToJson r, CACHE_TTL) := by
  have hspec2 : batchFetched s ids =
      s.store.rows.filter (fun r => decide (r.id ∈ specMisses s ids)) := by
    simp only [batchFetched]
    rw [batchMisses_eq_specMisses]
  have hndf : ((batchFetched s ids).map Movie.id).Nodup :=
    List.Nodup.sublist (List.Sublist.map Movie.id (List.filter_sublist _)) hnd
  cases hne : ids.isEmpty with
  | true =>
    have h0 : ids = [] := by rwa [List.isEmpty_eq_true] at hne
    subst h0
    have hf0 : batchFetched s [] = [] := by
      simp [batchFetched, batchMisses, batchScan]
    have hms0 : hms = [] := by
      have hb : decodeMovies (batchHits s []) = some [] := rfl
      rw [hb] at hdec
      exact (Option.some.inj hdec).symm
    rw [batch_empty_def]
    refine ⟨?_, batchHits_eq_specHits s [], hspec2, ?_⟩
    · rw [hms0, hf0]
      rfl
    · rw [hf0]
      intro r hr
      simp at hr
  | false =>
    cases hm : (batchMisses s ids).isEmpty with
    | true =>
      have hf0 : batchFetched s ids = [] := by
        have hmiss : batchMisses s ids = [] := by rwa [List.isEmpty_eq_true] at hm
        simp [batchFetched, hmiss]
      rw [batch_all_hit_def s ids hne hm]
      refine ⟨?_, batchHits_eq_specHits s ids, hspec2, ?_⟩
      · show moviesResponse (batchHits s ids) = .ok (hms ++ batchFetched s ids)
        rw [hf0, List.append_nil]
        simp only [moviesResponse, hdec]
      · rw [hf0]
        intro r hr
        simp at hr
    | false =>
      rw [batch_miss_def s ids hne hm]
      refine ⟨?_, batchHits_eq_specHits s ids, hspec2, ?_⟩
      · show moviesResponse (batchHits s ids ++ (batchFetched s ids).map movieToJson) =
          .ok (hms ++ batchFetched s ids)
        have hd2 : decodeMovies (batchHits s ids ++ (batchFetched s ids).map movieToJson) =
            some (hms ++ batchFetched s ids) :=
          decodeMovies_append _ _ _ _ hdec (decodeMovies_map _)
        simp only [moviesResponse, hd2]
      · intro r hr
        show cacheFind ((batchFetched s ids).foldl cacheFoldFn s.cache) _ = _
        exact cacheFind_foldl_mem _ s.cache r hndf hr

theorem C4_batch_order_witness :
    (get_movies_batch stateAfterCreate [1, 2]).result =
      .ok ([inceptionRow] ++ batchFetched stateAfterCreate [1, 2]) :=
  (C4_batch_order stateAfterCreate [1, 2] [inceptionRow] (by decide) rfl).1

/-- C5: the empty batch performs no store and no cache access (its trace is
empty) and yields []; when some ids miss the cache, exactly one store query
is issued and it covers exactly the non-cached input ids; when every id
hits the cache no store query occurs. -/
theorem C5_batch_frame (s : State) (ids : List Nat) :
    get_movies_batch s [] = ⟨.ok [], s, []⟩ ∧
    (ids.isEmpty = false → (batchMisses s ids).isEmpty = false →
      storeQueries (get_movies_batch s ids).events =
        [.selectByIds (specMisses s ids)]) ∧
    ((batchMisses s ids).isEmpty = true →
      storeQueries (get_movies_batch s ids).events = []) := by
  refine ⟨batch_empty_def s, ?_, ?_⟩
  · intro hne hm
    rw [batch_miss_def s ids hne hm]
    show storeQueries (batchEvents s ids ++ [.storeQuery (.selectByIds (batchMisses s ids))] ++
      (batchFetched s ids).map (fun r => .cacheSet (get_cache_key r.id) CACHE_TTL) ++
      [.commit]) = _
    rw [storeQueries_append, storeQueries_append, storeQueries_append]
    have hA : storeQueries (batchEvents s ids) = [] := by
      simp only [batchEvents, batchScan_events]
      exact storeQueries_map_cacheGet ids
    rw [hA, storeQueries_map_cacheSet, batchMisses_eq_specMisses]
    rfl
  · intro hm
    cases hne : ids.isEmpty with
    | true =>
      have h0 : ids = [] := by rwa [List.isEmpty_eq_true] at hne
      subst h0
      rfl
    | false =>
      rw [batch_all_hit_def s ids hne hm]
      show storeQueries (batchEvents s ids) = []
      simp only [batchEvents, batchScan_events]
      exact storeQueries_map_cacheGet ids

theorem C5_batch_frame_witness :
    storeQueries (get_movies_batch stateAfterCreate [1, 2]).events =
      [.selectByIds (specMisses stateAfterCreate [1, 2])] :=
  (C5_batch_frame stateAfterCreate [1, 2]).2.1 rfl rfl

/-- C6: create returns the persisted record, and get(id) invoked
immediately after returns exactly the same record from the per-id cache
the create populated — its trace is a single cache get, with no store
access — because the cached serialization round-trips. -/
theorem C6_create_then_get (s : State) (m : MovieIn) :
    (create_movie true s m).result = .ok (rowOfInput s.store.nextId m) ∧
    get_movie (create_movie true s m).state s.store.nextId =
      ⟨.ok (rowOfInput s.store.nextId m), (create_movie true s m).state,
       [.cacheGet (get_cache_key s.store.nextId)]⟩ := by
  refine ⟨rfl, ?_⟩
  have hfind : cacheFind (create_movie true s m).state.cache (get_cache_key s.store.nextId) =
      some (movieToJson (rowOfInput s.store.nextId m), CACHE_TTL) := by
    rw [create_true_def]
    show cacheFind (cacheRemove (cacheSetex s.cache (get_cache_key s.store.nextId) CACHE_TTL
      (movieToJson (rowOfInput s.store.nextId m))) get_all_movies_cache_key) _ = _
    rw [cacheFind_remove_other _ _ _ (get_cache_key_ne_all _), cacheFind_setex_same]
  rw [get_movie_hit _ _ _ _ hfind]
  simp [movieResponse, jsonToMovie_movieToJson]

/-- C7: update and delete on an id with no matching row fail NotFound with
the state (store and cache) entirely unchanged and a rolled-back trace with
no cache event; on success update overwrites the per-id entry with the new
value and a fresh TTL, and delete removes the per-id entry. -/
theorem C7_notfound_no_cache_mutation (s : State) (i : Nat) (m : MovieIn) :
    (findRow s.store.rows i = none →
      update_movie true s i m =
        ⟨.error .notFound, s, [.storeQuery (.updateRow i m), .rollback]⟩ ∧
      delete_movie true s i =
        ⟨.error .notFound, s, [.storeQuery (.deleteRow i), .rollback]⟩) ∧
    (∀ r₀, findRow s.store.rows i = some r₀ →
      cacheFind (update_movie true s i m).state.cache (get_cache_key i) =
        some (movieToJson (rowOfInput i m), CACHE_TTL) ∧
      cacheFind (delete_movie true s i).state.cache (get_cache_key i) = none) := by
  constructor
  · intro hf
    exact ⟨update_notFound_def s i m hf, delete_notFound_def s i hf⟩
  · intro r₀ hf
    constructor
    · rw [update_found_def s i m r₀ hf]
      show cacheFind (cacheRemove (cacheSetex s.cache (get_cache_key i) CACHE_TTL
        (movieToJson (rowOfInput i m))) get_all_movies_cache_key) _ = _
      rw [cacheFind_remove_other _ _ _ (get_cache_key_ne_all i), cacheFind_setex_same]
    · rw [delete_found_def s i r₀ hf]
      show cacheFind (cacheRemove (cacheRemove s.cache (get_cache_key i))
        get_all_movies_cache_key) _ = _
      rw [cacheFind_remove_other _ _ _ (get_cache_key_ne_all i), cacheFind_remove_same]

theorem C7_notfound_no_cache_mutation_witness :
    cacheFind (update_movie true stateAfterCreate 1 inceptionIn).state.cache
        (get_cache_key 1) = some (movieToJson (rowOfInput 1 inceptionIn), CACHE_TTL) ∧
    cacheFind (delete_movie true stateAfterCreate 1).state.cache (get_cache_key 1) = none :=
  (C7_notfound_no_cache_mutation stateAfterCreate 1 inceptionIn).2 inceptionRow rfl

/-- C8: every successful create/update/delete leaves the collection cache
key absent, and a listAll on a state with the collection key absent issues
a store query and repopulates the collection key with the TTL. -/
theorem C8_collection_invalidation (s : State) (i : Nat) (m : MovieIn) :
    cacheFind (create_movie true s m).state.cache get_all_movies_cache_key = none ∧
    (∀ r₀, findRow s.store.rows i = some r₀ →
      cacheFind (update_movie true s i m).state.cache get_all_movies_cache_key = none ∧
      cacheFind (delete_movie true s i).state.cache get_all_movies_cache_key = none) ∧
    (∀ s' : State, cacheFind s'.cache get_all_movies_cache_key = none →
      get_movies s' none =
        ⟨.ok s'.store.rows,
         ⟨s'.store, cacheSetex s'.cache get_all_movies_cache_key CACHE_TTL
           (moviesToJson s'.store.rows)⟩,
         [.cacheGet get_all_movies_cache_key, .storeQuery .selectAll,
          .cacheSet get_all_movies_cache_key CACHE_TTL, .commit]⟩) := by
  refine ⟨?_, ?_, fun s' h => get_movies_all_miss s' h⟩
  · rw [create_true_def]
    show cacheFind (cacheRemove _ get_all_movies_cache_key) _ = none
    exact cacheFind_remove_same _ _
  · intro r₀ hf
    constructor
    · rw [update_found_def s i m r₀ hf]
      show cacheFind (cacheRemove _ get_all_movies_cache_key) _ = none
      exact cacheFind_remove_same _ _
    · rw [delete_found_def s i r₀ hf]
      show cacheFind (cacheRemove _ get_all_movies_cache_key) _ = none
      exact cacheFind_remove_same _ _

theorem C8_collection_invalidation_witness :
    (cacheFind (update_movie true stateAfterCreate 1 inceptionIn).state.cache
        get_all_movies_cache_key = none ∧
     cacheFind (delete_movie true stateAfterCreate 1).state.cache
        get_all_movies_cache_key = none) ∧
    get_movies initState none =
      ⟨.ok initState.store.rows,
       ⟨initState.store, cacheSetex initState.cache get_all_movies_cache_key CACHE_TTL
         (moviesToJson initState.store.rows)⟩,
       [.cacheGet get_all_movies_cache_key, .storeQuery .selectAll,
        .cacheSet get_all_movies_cache_key CACHE_TTL, .commit]⟩ :=
  ⟨(C8_collection_invalidation stateAfterCreate 1 inceptionIn).2.1 inceptionRow rfl,
   (C8_collection_invalidation initState 1 inceptionIn).2.2 initState rfl⟩

/-- C9: listByGenre issues a direct store query on every call, leaves the
state (cache included) unchanged, and its trace contains no cache event —
so consecutive calls with no intervening writes each query the store. -/
theorem C9_genre_bypasses_cache (s : State) (g : String) :
    get_movies s (some g) =
      ⟨.ok (s.store.rows.filter (fun r => r.genre == g)), s,
       [.storeQuery (.selectByGenre g), .commit]⟩ ∧
    (∀ e ∈ (get_movies s (some g)).events, isCacheEvent e = false) ∧
    storeQueries (get_movies s (some g)).events = [.selectByGenre g] := by
  refine ⟨rfl, ?_, rfl⟩
  intro e he
  rw [get_movies_genre_def] at he
  rcases List.mem_cons.mp he with h | h
  · subst h; rfl
  · rcases List.mem_singleton.mp h with h'
    subst h'; rfl

theorem C9_genre_bypasses_cache_witness :
    get_movies initState (some dramaGenre) =
      ⟨.ok (initState.store.rows.filter (fun r => r.genre == dramaGenre)), initState,
       [.storeQuery (.selectByGenre dramaGenre), .commit]⟩ ∧
    isCacheEvent (Event.storeQuery (Query.selectByGenre dramaGenre)) = false :=
  ⟨(C9_genre_bypasses_cache initState dramaGenre).1,
   (C9_genre_bypasses_cache initState dramaGenre).2.1
     (Event.storeQuery (Query.selectByGenre dramaGenre)) (by decide)⟩

/-- C10: with duplicate input ids, each occurrence of a cached id
contributes one output element (k occurrences of a cached id contribute
exactly k copies of its cached value to the hits), while an id that misses
the cache contributes at most one fetched row no matter how often it
appears, because the single multi-key store query returns each matching
row once (ids are unique in the store). -/
theorem C10_duplicates (s : State) (ids : List Nat) (c : Nat)
    (hnd : (s.store.rows.map Movie.id).Nodup) :
    (∀ v t, cacheFind s.cache (get_cache_key c) = some (v, t) →
      specHits s (ids.filter (fun i => i = c)) = List.replicate (ids.count c) v) ∧
    (cacheFind s.cache (get_cache_key c) = none →
      ((batchFetched s ids).filter (fun r => decide (r.id = c))).length ≤ 1) := by
  constructor
  · intro v t h
    exact specHits_filter_eq_replicate s ids c v t h
  · intro _
    have h1 : ((batchFetched s ids).filter (fun r => decide (r.id = c))).Sublist
        (s.store.rows.filter (fun r => decide (r.id = c))) :=
      List.Sublist.filter _ (List.filter_sublist _)
    exact le_trans (List.Sublist.length_le h1) (count_rows_with_id _ c hnd)

theorem C10_duplicates_witness :
    specHits stateAfterCreate ([1, 1, 2].filter (fun i => i = 1)) =
      List.replicate ([1, 1, 2].count 1) (movieToJson inceptionRow) ∧
    ((batchFetched stateAfterCreate [2, 2]).filter (fun r => decide (r.id = 2))).length ≤ 1 :=
  ⟨(C10_duplicates stateAfterCreate [1, 1, 2] 1 (by decide)).1
     (movieToJson inceptionRow) CACHE_TTL rfl,
   (C10_duplicates stateAfterCreate [2, 2] 2 (by decide)).2 rfl⟩

end MovieService
